import Mathlib

/-!
Verification of the tinyalsa-cxx core (tinyalsa.cpp) against its
natural-language specification.  The C++ source is shallowly embedded:
pure routines become Lean functions, syscall outcomes become explicit
environment parameters, and the descriptor-owning handle becomes an
explicit state value.
-/

namespace TinyAlsa

/-! ### Platform error constants (errno.h, Linux) -/

/-- Error code ENOENT, the "no such entity" code returned on unallocated handles. -/
def ENOENT : Int := 2

/-- Error code ENOMEM, returned when backing storage cannot be allocated. -/
def ENOMEM : Int := 12

/-- Error code EINVAL, the generic "invalid argument" code. -/
def EINVAL : Int := 22

/-- Error code EPROTO, returned by the unimplemented setup routine. -/
def EPROTO : Int := 71

/-! ### Native ALSA constants

The values come from the Linux kernel header sound/asound.h, which the
repository includes but does not ship; the numeric values are the
standard kernel ones. -/

def SNDRV_PCM_CLASS_GENERIC : Int := 0

def SNDRV_PCM_CLASS_MULTI : Int := 1

def SNDRV_PCM_CLASS_MODEM : Int := 2

def SNDRV_PCM_CLASS_DIGITIZER : Int := 3

def SNDRV_PCM_SUBCLASS_GENERIC_MIX : Int := 0

def SNDRV_PCM_SUBCLASS_MULTI_MIX : Int := 1

/-- The pcm_class enumeration of the public header. -/
inductive pcm_class where
  | unknown
  | generic
  | multi_channel
  | modem
  | digitizer
deriving DecidableEq

/-- The pcm_subclass enumeration of the public header. -/
inductive pcm_subclass where
  | unknown
  | generic_mix
  | multi_channel_mix
deriving DecidableEq

/-- Embeds to_tinyalsa_class from tinyalsa.cpp: a switch over the native
class code, defaulting to unknown. -/
def to_tinyalsa_class (native_class_ : Int) : pcm_class :=
  if native_class_ = SNDRV_PCM_CLASS_GENERIC then pcm_class.generic
  else if native_class_ = SNDRV_PCM_CLASS_MULTI then pcm_class.multi_channel
  else if native_class_ = SNDRV_PCM_CLASS_MODEM then pcm_class.modem
  else if native_class_ = SNDRV_PCM_CLASS_DIGITIZER then pcm_class.digitizer
  else pcm_class.unknown

/-- Embeds to_tinyalsa_subclass from tinyalsa.cpp: a switch over the
native subclass code, defaulting to unknown. -/
def to_tinyalsa_subclass (native_subclass : Int) : pcm_subclass :=
  if native_subclass = SNDRV_PCM_SUBCLASS_GENERIC_MIX then pcm_subclass.generic_mix
  else if native_subclass = SNDRV_PCM_SUBCLASS_MULTI_MIX then pcm_subclass.multi_channel_mix
  else pcm_subclass.unknown

/-! ### Device-name parser (parsed_name::parse)

A C string is embedded as a NUL-free list of characters.  Reading past
the end of the string (the code relies on short-circuit evaluation and
the terminator to stay in bounds) yields the NUL terminator, embedded
as the default character of getC.  The C++ size_type comes from the
header, which the repository does not ship; following the spec, which
describes plain left-to-right base-10 accumulation, numbers are
modelled as unbounded naturals. -/

/-- Embeds the C string NUL terminator. -/
def nulChar : Char := Char.ofNat 0

/-- Reads character i of the embedded C string; past the end this is
the NUL terminator. -/
def getC (name : List Char) (i : Nat) : Char := name.getD i nulChar

/-- Embeds parsed_name::is_dec; character order is comparison of the
underlying code points. -/
def is_dec (c : Char) : Bool := decide ('0'.toNat ≤ c.toNat) && decide (c.toNat ≤ '9'.toNat)

/-- Embeds parsed_name::to_dec. -/
def to_dec (c : Char) : Nat := c.toNat - '0'.toNat

/-- Embeds the d_pos search loop of parsed_name::parse: from index i,
with fuel iterations left, return the index of the first match of the
separator letter D, or i plus fuel (that is, name_length) when there
is none. -/
def findDGo (name : List Char) : Nat → Nat → Nat
  | i, 0 => i
  | i, fuel + 1 => if getC name i = 'D' then i else findDGo name (i + 1) fuel

/-- Embeds the d_pos computation of parsed_name::parse: the search
starts at index 4 and runs to name_length, with d_pos defaulting to
name_length when no separator is found. -/
def findD (name : List Char) (len : Nat) : Nat := findDGo name 4 (len - 4)

/-- Embeds the digit-accumulation loops of parsed_name::parse: scan
fuel characters from index i; fail on a non-digit, otherwise
accumulate base 10 onto acc. -/
def scanGo (name : List Char) : Nat → Nat → Nat → Option Nat
  | _, acc, 0 => some acc
  | i, acc, fuel + 1 =>
    if is_dec (getC name i) then scanGo name (i + 1) (acc * 10 + to_dec (getC name i)) fuel
    else none

/-- Embeds one digit-span loop of parsed_name::parse over the
half-open index interval from lo to hi, starting from accumulator 0. -/
def scanSpan (name : List Char) (lo hi : Nat) : Option Nat := scanGo name lo 0 (hi - lo)

/-- Embeds the trailing-direction-character check of
parsed_name::parse: c means capture, p means playback, anything else
rejects. -/
def parseDir (c : Char) : Option Bool :=
  if c = 'c' then some true else if c = 'p' then some false else none

/-- Embeds parsed_name::parse.  Returns some (card, device,
is_capture) when the name is accepted and none when it is rejected,
mirroring the control flow of the source: empty-name check, the four
literal prefix characters, the search for the separator letter D, the
trailing direction character, then the two digit spans. -/
def parse (name : List Char) : Option (Nat × Nat × Bool) :=
  let len := name.length
  if len = 0 then none
  else if getC name 0 ≠ 'p' ∨ getC name 1 ≠ 'c' ∨ getC name 2 ≠ 'm' ∨ getC name 3 ≠ 'C' then none
  else
    let d_pos := findD name len
    if len ≤ d_pos then none
    else
      match parseDir (getC name (len - 1)) with
      | none => none
      | some cap =>
        match scanSpan name 4 d_pos with
        | none => none
        | some card =>
          match scanSpan name (d_pos + 1) (len - 1) with
          | none => none
          | some device => some (card, device, cap)

/-- Left-to-right base-10 accumulation of a digit span onto an
accumulator, the quantity the digit loops of parsed_name::parse
compute. -/
def decAccum (acc : Nat) (ds : List Char) : Nat := ds.foldl (fun a c => a * 10 + to_dec c) acc

/-- The base-10 value of a digit span. -/
def decValue (ds : List Char) : Nat := decAccum 0 ds

/-! ### The device-name grammar -/

/-- The literal lead of the device-name grammar. -/
def pcmCLead : List Char := ['p', 'c', 'm', 'C']

/-- Modelled from the spec: the device-name grammar exactly as the
spec states it — the literal lead pcmC, one or more decimal digits for
the card, the separator letter D, one or more decimal digits for the
device, and one trailing direction character, c for capture or p for
playback, with card and device the base-10 values of the digit
spans. -/
def specGrammar (name : List Char) (card device : Nat) (cap : Bool) : Prop :=
  ∃ ds1 ds2 dir, name = pcmCLead ++ ds1 ++ 'D' :: (ds2 ++ [dir])
    ∧ ds1 ≠ [] ∧ ds2 ≠ []
    ∧ (∀ c ∈ ds1, is_dec c = true) ∧ (∀ c ∈ ds2, is_dec c = true)
    ∧ ((dir = 'c' ∧ cap = true) ∨ (dir = 'p' ∧ cap = false))
    ∧ card = decValue ds1 ∧ device = decValue ds2

/-- Modelled from the spec: acceptance by the grammar of the spec. -/
def specAccepts (name : List Char) : Prop := ∃ card device cap, specGrammar name card device cap

/-- The grammar the code actually recognises: the same shape as the
grammar of the spec up to the digit spans, which may be empty, an
empty span denoting the value 0. -/
def codeGrammar (name : List Char) (card device : Nat) (cap : Bool) : Prop :=
  ∃ ds1 ds2 dir, name = pcmCLead ++ ds1 ++ 'D' :: (ds2 ++ [dir])
    ∧ (∀ c ∈ ds1, is_dec c = true) ∧ (∀ c ∈ ds2, is_dec c = true)
    ∧ ((dir = 'c' ∧ cap = true) ∨ (dir = 'p' ∧ cap = false))
    ∧ card = decValue ds1 ∧ device = decValue ds2

/-! ### Path synthesis (pcm::open_capture_device, pcm::open_playback_device) -/

/-- Decimal rendering of an unsigned value, most significant digit
first, as the %lu conversion of snprintf produces it. -/
def natDigits (n : Nat) : List Char := Nat.toDigits 10 n

/-- The fixed device directory of the synthesized paths. -/
def devSndDir : List Char := ['/', 'd', 'e', 'v', '/', 's', 'n', 'd', '/']

/-- Embeds the snprintf path synthesis of pcm::open_capture_device. -/
def capture_path (card device : Nat) : List Char :=
  devSndDir ++ pcmCLead ++ natDigits card ++ 'D' :: (natDigits device ++ ['c'])

/-- Embeds the snprintf path synthesis of pcm::open_playback_device. -/
def playback_path (card device : Nat) : List Char :=
  devSndDir ++ pcmCLead ++ natDigits card ++ 'D' :: (natDigits device ++ ['p'])

/-! ### The device handle (pcm, pcm_impl)

The handle is embedded as an explicit state: none models a null self
pointer (a handle on which no open was ever attempted), some fd models
an allocated pcm_impl whose field holds the descriptor or the invalid
sentinel.  Each syscall's outcome is an explicit environment argument,
and operations additionally return the descriptor-level syscalls they
issued, in program order, so that descriptor ownership can be traced.
-/

/-- Modelled from the spec: the invalid descriptor sentinel invalid_fd
of the public header (the header is not part of the repository
sources); open returns nonnegative descriptors, so the sentinel is the
conventional -1, consistent with the fd < 0 check of
pcm_impl::open_by_path. -/
def invalid_fd : Int := -1

/-- State of a pcm handle: the self pointer and, when allocated, the
fd field of pcm_impl. -/
abbrev PcmState := Option Int

/-- Embeds pcm::pcm(): self starts null. -/
def pcm_init : PcmState := none

/-- Embeds pcm::is_open. -/
def is_open : PcmState → Bool
  | none => false
  | some fd => decide (fd ≠ invalid_fd)

/-- Embeds pcm::get_file_descriptor. -/
def get_file_descriptor : PcmState → Int
  | none => invalid_fd
  | some fd => fd

/-- Outcome of one close syscall: the value it returned (-1 on
failure) and the errno the platform set. -/
structure CloseEnv where
  ret : Int
  errno : Int
deriving DecidableEq

/-- Outcome of one open syscall: the new descriptor (nonnegative) on
success or a negative value on failure, and the errno the platform
set. -/
structure OpenEnv where
  ret : Int
  errno : Int
deriving DecidableEq

/-- Outcome of one control ioctl: the value it returned and the errno
the platform set. -/
structure IoctlEnv where
  ret : Int
  errno : Int
deriving DecidableEq

/-- Embeds pcm::close.  Returns the new state, the result code, and
the descriptors passed to the close syscall: success without a close
syscall when self is null or the field already holds the sentinel;
otherwise the descriptor is closed, the field is reset to the sentinel
regardless of the close outcome, and the errno is returned exactly
when the close syscall failed. -/
def pcm_close (s : PcmState) (env : CloseEnv) : PcmState × Int × List Int :=
  match s with
  | none => (none, 0, [])
  | some fd =>
    if fd ≠ invalid_fd then
      (some invalid_fd, if env.ret = -1 then env.errno else 0, [fd])
    else (some fd, 0, [])

/-- One descriptor-level syscall, in program order. -/
inductive Ev where
  | closeFd (fd : Int)
  | openFile (ret : Int)
deriving DecidableEq

/-- Embeds pcm_impl::open_by_path: a held descriptor is closed first;
then the open syscall runs; on failure the field is reset to the
sentinel and the errno returned, on success the new descriptor is
stored and zero returned.  Returns the new field value, the result
code, and the syscalls issued in order. -/
def open_by_path (fd : Int) (env : OpenEnv) : Int × Int × List Ev :=
  let pre := if fd ≠ invalid_fd then [Ev.closeFd fd] else []
  if env.ret < 0 then (invalid_fd, env.errno, pre ++ [Ev.openFile env.ret])
  else (env.ret, 0, pre ++ [Ev.openFile env.ret])

/-- Embeds pcm::open_capture_device / pcm::open_playback_device after
path synthesis: lazy_init allocates the implementation record when
self is null (allocOk false models the nothrow-new failure, surfaced
as ENOMEM), then open_by_path runs on the synthesized path. -/
def open_device (s : PcmState) (allocOk : Bool) (env : OpenEnv) : PcmState × Int × List Ev :=
  match s with
  | none =>
    if allocOk then
      let r := open_by_path invalid_fd env
      (some r.1, r.2.1, r.2.2)
    else (none, ENOMEM, [])
  | some fd =>
    let r := open_by_path fd env
    (some r.1, r.2.1, r.2.2)

/-- The no-payload control requests of the pcm surface. -/
inductive CtlReq where
  | prepare
  | start
  | dropReq
deriving DecidableEq

/-- Embeds pcm::prepare, pcm::start and pcm::drop, which differ only
in the request code issued: ENOENT without any control call when self
is null; otherwise one ioctl on the stored descriptor, with the
platform errno surfaced when the ioctl fails and success otherwise.
Returns the result code and the control calls issued, each a request
paired with the descriptor it was issued on. -/
def pcm_ctl (req : CtlReq) (s : PcmState) (env : IoctlEnv) : Int × List (CtlReq × Int) :=
  match s with
  | none => (ENOENT, [])
  | some fd => (if env.ret < 0 then env.errno else 0, [(req, fd)])

/-- Embeds pcm::setup, the documented stub: always EPROTO. -/
def pcm_setup (_s : PcmState) : Int := EPROTO

/-- Embeds pcm::get_info over an abstract payload type: ENOENT without
a control call when self is null; otherwise one INFO ioctl on the
stored descriptor, surfacing the platform errno when it fails and the
translated payload when it succeeds.  Returns the error code with the
optional payload, and the descriptors the ioctl was issued on. -/
def pcm_get_info {α : Type} (s : PcmState) (env : IoctlEnv) (payload : α) :
    (Int × Option α) × List Int :=
  match s with
  | none => ((ENOENT, none), [])
  | some fd => (if env.ret ≠ 0 then (env.errno, none) else (0, some payload), [fd])

/-- Outcome of one interleaved-read transfer ioctl: the value the
ioctl returned and the frame count it stored in the transfer
record. -/
structure XferEnv where
  ret : Int
  resultFrames : Nat
deriving DecidableEq

/-- Embeds interleaved_pcm_reader::read_unformatted: one transfer
ioctl on whatever get_file_descriptor currently returns (there is no
null-handle check); any ioctl failure is collapsed to EINVAL with zero
frames; success returns the transferred count as reported.  Returns
(error, frames) and the issued transfer requests, each the descriptor
paired with the requested frame count. -/
def read_unformatted (s : PcmState) (frame_count : Nat) (env : XferEnv) :
    (Int × Nat) × List (Int × Nat) :=
  let fd := get_file_descriptor s
  if env.ret ≠ 0 then ((EINVAL, 0), [(fd, frame_count)])
  else ((0, env.resultFrames), [(fd, frame_count)])

/-! ### Descriptor-ownership trace semantics -/

/-- One observable operation on a handle, with the syscall outcomes
the environment supplies for it. -/
inductive PcmOp where
  | openDev (allocOk : Bool) (env : OpenEnv)
  | closeOp (env : CloseEnv)
  | ctl (req : CtlReq) (env : IoctlEnv)
  | getInfo (env : IoctlEnv)
  | readOp (frame_count : Nat) (env : XferEnv)
deriving DecidableEq

/-- State reached after one operation. -/
def pcmStep (s : PcmState) : PcmOp → PcmState
  | PcmOp.openDev allocOk env => (open_device s allocOk env).1
  | PcmOp.closeOp env => (pcm_close s env).1
  | PcmOp.ctl _ _ => s
  | PcmOp.getInfo _ => s
  | PcmOp.readOp _ _ => s

/-- Descriptor-level syscalls one operation issues, in order. -/
def pcmEvs (s : PcmState) : PcmOp → List Ev
  | PcmOp.openDev allocOk env => (open_device s allocOk env).2.2
  | PcmOp.closeOp env => ((pcm_close s env).2.2).map Ev.closeFd
  | PcmOp.ctl _ _ => []
  | PcmOp.getInfo _ => []
  | PcmOp.readOp _ _ => []

/-- Replay of one descriptor event over the multiset of descriptors
the handle holds open: a close releases the descriptor, a successful
open acquires the returned one. -/
def applyEv (live : List Int) : Ev → List Int
  | Ev.closeFd f => live.filter (fun x => decide (x ≠ f))
  | Ev.openFile ret => if ret < 0 then live else live ++ [ret]

/-- Replay of a list of descriptor events. -/
def replay (live : List Int) (evs : List Ev) : List Int := evs.foldl applyEv live

/-- Run of a handle from construction through a list of operations,
tracking the handle state and the descriptors held open. -/
def pcmRun (ops : List PcmOp) : PcmState × List Int :=
  ops.foldl (fun p op => (pcmStep p.1 op, replay p.2 (pcmEvs p.1 op))) (pcm_init, [])

/-- Correspondence between the stored field and the descriptors held
open: a null or sentinel-holding handle owns none, any other handle
owns exactly the stored descriptor. -/
def liveInv : PcmState → List Int → Prop
  | none, live => live = []
  | some fd, live => if fd = invalid_fd then live = [] else live = [fd]

/-! ### The device enumerator (pcm_list::pcm_list) -/

/-- One directory entry together with the outcomes the environment
supplies for probing it: the result code of opening the implied device
as a function of the card, the device, the direction (is_capture) and
the blocking flag (non_blocking) the code passes, and the outcome of
get_info on the opened handle, over an abstract snapshot type. -/
structure EnvEntry (α : Type) where
  name : List Char
  openErr : Nat → Nat → Bool → Bool → Int
  infoOut : Except Int α

/-- The snapshot one directory entry contributes when every probing
step succeeds: its name parses, the implied device — the parsed card
and device, capture or playback per the parsed direction, opened with
non_blocking false, the default blocking mode — opens with code zero,
and get_info succeeds. -/
def entrySnapshot {α : Type} (e : EnvEntry α) : Option α :=
  match parse e.name with
  | none => none
  | some (card, device, cap) =>
    if e.openErr card device cap false ≠ 0 then none
    else
      match e.infoOut with
      | Except.error _ => none
      | Except.ok info => some info

/-- Embeds the enumeration loop of pcm_list::pcm_list: each directory
entry in scan order is parsed, the implied device opened per the
parsed card, device and direction in blocking mode, get_info queried,
and the snapshot appended; any per-entry failure skips the entry and
the scan continues; a failed append (alloc false at the current
length, the emplace_back throwing) breaks the loop with the partial
list retained and no error surfaced. -/
def pcm_list_build {α : Type} (alloc : Nat → Bool) : List (EnvEntry α) → List α → List α
  | [], acc => acc
  | e :: rest, acc =>
    match parse e.name with
    | none => pcm_list_build alloc rest acc
    | some (card, device, cap) =>
      if e.openErr card device cap false ≠ 0 then pcm_list_build alloc rest acc
      else
        match e.infoOut with
        | Except.error _ => pcm_list_build alloc rest acc
        | Except.ok info =>
          if alloc acc.length then pcm_list_build alloc rest (acc ++ [info])
          else acc

/-! ### Basic facts about the embedded C string accessor -/

theorem getC_cons_zero (a : Char) (l : List Char) : getC (a :: l) 0 = a := List.getD_cons_zero

theorem getC_cons_succ (a : Char) (l : List Char) (i : Nat) : getC (a :: l) (i + 1) = getC l i :=
  List.getD_cons_succ

theorem getC_drop (name : List Char) (lo j : Nat) : getC name (lo + j) = getC (name.drop lo) j := by
  induction lo generalizing name with
  | zero => simp
  | succ n ih =>
    cases name with
    | nil => simp [getC]
    | cons a t =>
      have he : n + 1 + j = (n + j) + 1 := by omega
      rw [he, getC_cons_succ, List.drop_succ_cons]
      exact ih t

theorem getC_default_of_le (name : List Char) (i : Nat) (h : name.length ≤ i) :
    getC name i = nulChar :=
  List.getD_eq_default name nulChar h

theorem lt_length_of_getC_ne (name : List Char) (i : Nat) (h : getC name i ≠ nulChar) :
    i < name.length := by
  by_contra hc
  exact h (getC_default_of_le name i (by omega))

theorem drop_eq_getC_cons (name : List Char) (i : Nat) (h : i < name.length) :
    name.drop i = getC name i :: name.drop (i + 1) := by
  induction name generalizing i with
  | nil => simp at h
  | cons a t ih =>
    cases i with
    | zero => simp [getC_cons_zero]
    | succ n =>
      rw [List.drop_succ_cons, getC_cons_succ]
      have : n + 2 = n + 1 + 1 := by omega
      rw [this, List.drop_succ_cons]
      exact ih n (by simpa using h)

theorem take_four (name : List Char) (h : 4 ≤ name.length) :
    name.take 4 = [getC name 0, getC name 1, getC name 2, getC name 3] := by
  rcases name with _ | ⟨a, _ | ⟨b, _ | ⟨c, _ | ⟨d, t⟩⟩⟩⟩
  · simp at h
  · simp at h
  · simp at h
  · simp at h
  · simp [getC]

theorem getC_append_left (l₁ l₂ : List Char) (j : Nat) (h : j < l₁.length) :
    getC (l₁ ++ l₂) j = getC l₁ j := by
  unfold getC
  rw [List.getD_append l₁ l₂ nulChar j h]

/-! ### Correctness of the separator search loop -/

theorem findDGo_ge (name : List Char) (fuel : Nat) : ∀ i, i ≤ findDGo name i fuel := by
  induction fuel with
  | zero => intro i; simp [findDGo]
  | succ n ih =>
    intro i
    simp only [findDGo]
    split
    · exact Nat.le_refl i
    · exact Nat.le_trans (Nat.le_succ i) (ih (i + 1))

theorem findDGo_le (name : List Char) (fuel : Nat) : ∀ i, findDGo name i fuel ≤ i + fuel := by
  induction fuel with
  | zero => intro i; simp [findDGo]
  | succ n ih =>
    intro i
    simp only [findDGo]
    split
    · omega
    · have := ih (i + 1); omega

theorem findDGo_found (name : List Char) (fuel : Nat) :
    ∀ i, findDGo name i fuel < i + fuel → getC name (findDGo name i fuel) = 'D' := by
  induction fuel with
  | zero => intro i h; simp only [findDGo] at h; omega
  | succ n ih =>
    intro i h
    by_cases hD : getC name i = 'D'
    · simp [findDGo, hD]
    · simp only [findDGo, if_neg hD] at h ⊢
      exact ih (i + 1) (by omega)

theorem findDGo_min (name : List Char) (fuel : Nat) :
    ∀ i k, i ≤ k → k < findDGo name i fuel → getC name k ≠ 'D' := by
  induction fuel with
  | zero =>
    intro i k h1 h2
    simp only [findDGo] at h2
    omega
  | succ n ih =>
    intro i k h1 h2
    simp only [findDGo] at h2
    by_cases hD : getC name i = 'D'
    · rw [if_pos hD] at h2; omega
    · rw [if_neg hD] at h2
      rcases Nat.eq_or_lt_of_le h1 with he | hlt
      · rw [← he]; exact hD
      · exact ih (i + 1) k hlt h2

theorem findDGo_eq_of (name : List Char) (fuel : Nat) :
    ∀ i j, i ≤ j → j < i + fuel → getC name j = 'D' →
      (∀ k, i ≤ k → k < j → getC name k ≠ 'D') → findDGo name i fuel = j := by
  induction fuel with
  | zero => intro i j h1 h2 _ _; omega
  | succ n ih =>
    intro i j h1 h2 hD hmin
    simp only [findDGo]
    by_cases hDi : getC name i = 'D'
    · rcases Nat.eq_or_lt_of_le h1 with he | hlt
      · rw [if_pos hDi]; exact he
      · exact absurd hDi (hmin i (Nat.le_refl i) hlt)
    · rw [if_neg hDi]
      have h1' : i + 1 ≤ j := by
        rcases Nat.eq_or_lt_of_le h1 with he | hlt
        · exact absurd (he ▸ hD) hDi
        · exact hlt
      exact ih (i + 1) j h1' (by omega) hD (fun k hk1 hk2 => hmin k (by omega) hk2)

/-! ### Correctness of the digit-span loop -/

theorem scanGo_eq (name : List Char) (fuel : Nat) :
    ∀ i acc, i + fuel ≤ name.length →
      scanGo name i acc fuel =
        if ((name.drop i).take fuel).all is_dec
        then some (decAccum acc ((name.drop i).take fuel)) else none := by
  induction fuel with
  | zero => intro i acc _; simp [scanGo, decAccum]
  | succ n ih =>
    intro i acc h
    have hi : i < name.length := by omega
    rw [drop_eq_getC_cons name i hi]
    rw [List.take_succ_cons, List.all_cons]
    by_cases hd : is_dec (getC name i)
    · simp only [scanGo, if_pos hd, hd, Bool.true_and]
      rw [ih (i + 1) (acc * 10 + to_dec (getC name i)) (by omega)]
      simp [decAccum]
    · simp [scanGo, hd]

/-! ### Characterisation of parse -/

theorem parseDir_eq_some (c : Char) (b : Bool) (h : parseDir c = some b) :
    (c = 'c' ∧ b = true) ∨ (c = 'p' ∧ b = false) := by
  unfold parseDir at h
  split at h
  · next hc => injection h with h'; exact Or.inl ⟨hc, h'.symm⟩
  · split at h
    · next hp => injection h with h'; exact Or.inr ⟨hp, h'.symm⟩
    · exact absurd h (by simp)

theorem parse_eq_some_iff (name : List Char) (v : Nat × Nat × Bool) :
    parse name = some v ↔
      name.length ≠ 0 ∧
      getC name 0 = 'p' ∧ getC name 1 = 'c' ∧ getC name 2 = 'm' ∧ getC name 3 = 'C' ∧
      findD name name.length < name.length ∧
      parseDir (getC name (name.length - 1)) = some v.2.2 ∧
      scanSpan name 4 (findD name name.length) = some v.1 ∧
      scanSpan name (findD name name.length + 1) (name.length - 1) = some v.2.1 := by
  constructor
  · intro h
    simp only [parse] at h
    split at h
    · exact absurd h (by simp)
    · next h1 =>
      split at h
      · exact absurd h (by simp)
      · next h2 =>
        split at h
        · exact absurd h (by simp)
        · next h5 =>
          split at h
          · exact absurd h (by simp)
          · next cap hdir =>
            split at h
            · exact absurd h (by simp)
            · next card hcard =>
              split at h
              · exact absurd h (by simp)
              · next device hdev =>
                push_neg at h2
                injection h with h'
                subst h'
                exact ⟨h1, h2.1, h2.2.1, h2.2.2.1, h2.2.2.2, by omega, hdir, hcard, hdev⟩
  · rintro ⟨h1, h2, h3, h4, h5, h6, h7, h8, h9⟩
    simp only [parse]
    rw [if_neg h1, if_neg (by simp [h2, h3, h4, h5]), if_neg (by omega), h7, h8, h9]

theorem is_dec_ne_D (c : Char) (h : is_dec c = true) : c ≠ 'D' := by
  intro he
  subst he
  exact absurd h (by decide)

theorem is_dec_ne_nul (c : Char) (h : is_dec c = true) : c ≠ nulChar := by
  intro he
  subst he
  exact absurd h (by decide)

theorem parse_sound (name : List Char) (card device : Nat) (cap : Bool)
    (h : parse name = some (card, device, cap)) : codeGrammar name card device cap := by
  rw [parse_eq_some_iff] at h
  obtain ⟨h0, hp, hc, hm, hC, hdlt, hdir, hcard, hdev⟩ := h
  have h4 : 4 ≤ name.length := lt_length_of_getC_ne name 3 (by rw [hC]; decide)
  set len := name.length with hlen
  set d_pos := findD name len with hdp
  have hge : 4 ≤ d_pos := by
    have := findDGo_ge name (len - 4) 4
    simpa [findD, ← hdp] using this
  have hDat : getC name d_pos = 'D' := by
    have := findDGo_found name (len - 4) 4 (by rw [findD] at hdp; omega)
    rwa [← findD, ← hdp] at this
  have hdirchar := parseDir_eq_some _ _ hdir
  have hne : d_pos ≠ len - 1 := by
    intro he
    rw [he] at hDat
    rcases hdirchar with ⟨he2, _⟩ | ⟨he2, _⟩ <;> rw [he2] at hDat <;> exact absurd hDat (by decide)
  have hlt1 : d_pos + 1 ≤ len - 1 := by omega
  rw [scanSpan, scanGo_eq name (d_pos - 4) 4 0 (by omega)] at hcard
  rw [scanSpan, scanGo_eq name (len - 1 - (d_pos + 1)) (d_pos + 1) 0 (by omega)] at hdev
  set ds1 := (name.drop 4).take (d_pos - 4) with hds1
  set ds2 := (name.drop (d_pos + 1)).take (len - 1 - (d_pos + 1)) with hds2
  by_cases hall1 : ds1.all is_dec
  · by_cases hall2 : ds2.all is_dec
    · rw [if_pos hall1] at hcard
      rw [if_pos hall2] at hdev
      injection hcard with hcard'
      injection hdev with hdev'
      have e1 : name.take 4 = pcmCLead := by
        rw [take_four name h4, hp, hc, hm, hC, pcmCLead]
      have e2 : name.drop 4 = ds1 ++ name.drop d_pos := by
        conv_lhs => rw [← List.take_append_drop (d_pos - 4) (name.drop 4)]
        rw [List.drop_drop]
        have : 4 + (d_pos - 4) = d_pos := by omega
        rw [this]
      have e3 : name.drop d_pos = 'D' :: name.drop (d_pos + 1) := by
        rw [drop_eq_getC_cons name d_pos (by omega), hDat]
      have e4 : name.drop (d_pos + 1) = ds2 ++ name.drop (len - 1) := by
        conv_lhs => rw [← List.take_append_drop (len - 1 - (d_pos + 1)) (name.drop (d_pos + 1))]
        rw [List.drop_drop]
        have : d_pos + 1 + (len - 1 - (d_pos + 1)) = len - 1 := by omega
        rw [this]
      have e5 : name.drop (len - 1) = [getC name (len - 1)] := by
        rw [drop_eq_getC_cons name (len - 1) (by omega)]
        have : len - 1 + 1 = len := by omega
        rw [this, hlen, List.drop_length]
      refine ⟨ds1, ds2, getC name (len - 1), ?_, ?_, ?_, ?_, ?_, ?_⟩
      · conv_lhs => rw [← List.take_append_drop 4 name, e1, e2, e3, e4, e5]
        simp
      · exact List.all_eq_true.mp hall1
      · exact List.all_eq_true.mp hall2
      · exact hdirchar
      · rw [decValue]; exact hcard'.symm
      · rw [decValue]; exact hdev'.symm
    · rw [if_neg hall2] at hdev
      exact absurd hdev (by simp)
  · rw [if_neg hall1] at hcard
    exact absurd hcard (by simp)

theorem getC_eq_of_drop (name l : List Char) (lo : Nat) (h : name.drop lo = l) (j : Nat) :
    getC name (lo + j) = getC l j := by
  rw [getC_drop, h]

theorem parse_complete (name : List Char) (card device : Nat) (cap : Bool)
    (h : codeGrammar name card device cap) : parse name = some (card, device, cap) := by
  obtain ⟨ds1, ds2, dir, hname, hdig1, hdig2, hdir, hcard, hdev⟩ := h
  have hlen : name.length = ds1.length + ds2.length + 6 := by
    rw [hname]; simp [pcmCLead]; omega
  have hdrop4 : name.drop 4 = ds1 ++ 'D' :: (ds2 ++ [dir]) := by
    rw [hname, show pcmCLead ++ ds1 ++ 'D' :: (ds2 ++ [dir])
          = pcmCLead ++ (ds1 ++ 'D' :: (ds2 ++ [dir])) from by simp]
    exact List.drop_left pcmCLead _
  have hdropd : name.drop (4 + ds1.length) = 'D' :: (ds2 ++ [dir]) := by
    rw [← List.drop_drop ds1.length 4 name, hdrop4]
    exact List.drop_left ds1 _
  have hgetD : getC name (4 + ds1.length) = 'D' := by
    have := getC_eq_of_drop name _ (4 + ds1.length) hdropd 0
    simpa [getC] using this
  have hp0 : getC name 0 = 'p' := by rw [hname]; rfl
  have hp1 : getC name 1 = 'c' := by rw [hname]; rfl
  have hp2 : getC name 2 = 'm' := by rw [hname]; rfl
  have hp3 : getC name 3 = 'C' := by rw [hname]; rfl
  have hfind : findD name name.length = 4 + ds1.length := by
    rw [findD]
    apply findDGo_eq_of name (name.length - 4) 4 (4 + ds1.length)
    · omega
    · omega
    · exact hgetD
    · intro k hk1 hk2
      have hj : k - 4 < ds1.length := by omega
      have hk : getC name k = getC (ds1 ++ 'D' :: (ds2 ++ [dir])) (k - 4) := by
        have := getC_eq_of_drop name _ 4 hdrop4 (k - 4)
        rwa [show 4 + (k - 4) = k from by omega] at this
      rw [hk, getC_append_left _ _ _ hj]
      apply is_dec_ne_D
      apply hdig1
      rw [getC, List.getD_eq_getElem ds1 nulChar hj]
      exact List.getElem_mem hj
  have hlast : getC name (name.length - 1) = dir := by
    have hd : name.drop (name.length - 1) = [dir] := by
      rw [hname]
      rw [show (pcmCLead ++ ds1 ++ 'D' :: (ds2 ++ [dir])).length - 1
            = (pcmCLead ++ ds1 ++ 'D' :: ds2).length from by simp [pcmCLead]; omega]
      rw [show pcmCLead ++ ds1 ++ 'D' :: (ds2 ++ [dir])
            = (pcmCLead ++ ds1 ++ 'D' :: ds2) ++ [dir] from by simp]
      exact List.drop_left _ _
    have := getC_eq_of_drop name _ (name.length - 1) hd 0
    simpa [getC] using this
  have hdirsome : parseDir (getC name (name.length - 1)) = some cap := by
    rw [hlast]
    rcases hdir with ⟨rfl, rfl⟩ | ⟨rfl, rfl⟩ <;> rfl
  have hdropd1 : name.drop (4 + ds1.length + 1) = ds2 ++ [dir] := by
    rw [← List.drop_drop 1 (4 + ds1.length) name, hdropd]
    rfl
  have hspan1 : scanSpan name 4 (4 + ds1.length) = some card := by
    rw [scanSpan, show 4 + ds1.length - 4 = ds1.length from by omega]
    rw [scanGo_eq name ds1.length 4 0 (by omega)]
    rw [show (name.drop 4).take ds1.length = ds1 from by
          rw [hdrop4]; exact List.take_left ds1 _]
    rw [if_pos (List.all_eq_true.mpr hdig1)]
    rw [hcard, decValue]
  have hspan2 : scanSpan name (4 + ds1.length + 1) (name.length - 1) = some device := by
    rw [scanSpan, show name.length - 1 - (4 + ds1.length + 1) = ds2.length from by omega]
    rw [scanGo_eq name ds2.length (4 + ds1.length + 1) 0 (by omega)]
    rw [show (name.drop (4 + ds1.length + 1)).take ds2.length = ds2 from by
          rw [hdropd1]; exact List.take_left ds2 _]
    rw [if_pos (List.all_eq_true.mpr hdig2)]
    rw [hdev, decValue]
  rw [parse_eq_some_iff]
  refine ⟨by omega, hp0, hp1, hp2, hp3, by rw [hfind]; omega, hdirsome, ?_, ?_⟩
  · rw [hfind]; exact hspan1
  · rw [hfind]; exact hspan2

theorem specGrammar_length (name : List Char) (card device : Nat) (cap : Bool)
    (h : specGrammar name card device cap) : 8 ≤ name.length := by
  obtain ⟨ds1, ds2, dir, hname, hne1, hne2, _⟩ := h
  have l1 : 0 < ds1.length := List.length_pos.mpr hne1
  have l2 : 0 < ds2.length := List.length_pos.mpr hne2
  rw [hname]
  simp [pcmCLead]
  omega

/-! ### Claim C1 -/

/-- Claim C1, counterexample: the parser accepts the six-character
name pcmCDc — whose two digit spans are empty — with card 0,
device 0 and capture direction, while the grammar of the spec, which
demands one or more digits in each span, generates no name shorter
than eight characters.  The acceptance-iff-grammar claim is therefore
false as stated. -/
theorem parse_accepts_beyond_spec_grammar :
    parse ['p', 'c', 'm', 'C', 'D', 'c'] = some (0, 0, true) ∧
      ¬ specAccepts ['p', 'c', 'm', 'C', 'D', 'c'] := by
  refine ⟨by decide, ?_⟩
  rintro ⟨card, device, cap, h⟩
  exact absurd (specGrammar_length _ _ _ _ h) (by decide)

/-- Claim C1, amended: the device-name parser accepts a string exactly
when it matches the grammar consisting of the literal prefix pcmC,
then zero or more decimal digits (the card index), then the literal D,
then zero or more decimal digits (the device index), then exactly one
trailing direction character c (capture) or p (playback); on
acceptance the recovered card and device equal the base-10 values of
the two digit spans (an empty span denoting zero) and is_capture is
true exactly when the trailing character is c; on any other string
parsing rejects. -/
theorem parse_iff_code_grammar (name : List Char) (card device : Nat) (cap : Bool) :
    parse name = some (card, device, cap) ↔ codeGrammar name card device cap :=
  ⟨parse_sound name card device cap, parse_complete name card device cap⟩

/-! ### Claim C4 -/

/-- Claim C4: the device path synthesized from card 2, device 1,
capture direction is the device directory followed by the filename
pcmC2D1c, the device-name parser accepts that filename, and parsing it
recovers exactly card 2, device 1, is_capture true. -/
theorem capture_path_roundtrip :
    capture_path 2 1 = devSndDir ++ ['p', 'c', 'm', 'C', '2', 'D', '1', 'c'] ∧
      parse ['p', 'c', 'm', 'C', '2', 'D', '1', 'c'] = some (2, 1, true) := by
  exact ⟨by decide, by decide⟩

/-! ### Descriptor-ownership invariant -/

theorem open_by_path_effect (fd : Int) (env : OpenEnv) (live : List Int)
    (h : if fd = invalid_fd then live = [] else live = [fd]) :
    if (open_by_path fd env).1 = invalid_fd
    then replay live (open_by_path fd env).2.2 = []
    else replay live (open_by_path fd env).2.2 = [(open_by_path fd env).1] := by
  by_cases hfd : fd = invalid_fd
  · rw [if_pos hfd] at h
    subst h
    subst hfd
    by_cases hr : env.ret < 0
    · simp [open_by_path, hr, replay, applyEv]
    · have hne : ¬(env.ret = invalid_fd) := by simp only [invalid_fd]; omega
      simp [open_by_path, hr, replay, applyEv, hne]
  · rw [if_neg hfd] at h
    subst h
    by_cases hr : env.ret < 0
    · simp [open_by_path, hfd, hr, replay, applyEv]
    · have hne : ¬(env.ret = invalid_fd) := by simp only [invalid_fd]; omega
      simp [open_by_path, hfd, hr, replay, applyEv, hne]

theorem liveInv_step (s : PcmState) (live : List Int) (op : PcmOp) (h : liveInv s live) :
    liveInv (pcmStep s op) (replay live (pcmEvs s op)) := by
  cases op with
  | openDev allocOk env =>
    cases s with
    | none =>
      have hl : live = [] := h
      subst hl
      cases allocOk with
      | false => simp [pcmStep, pcmEvs, open_device, replay, liveInv]
      | true =>
        have := open_by_path_effect invalid_fd env [] (by simp)
        simp only [pcmStep, pcmEvs, open_device, liveInv, if_pos]
        split at this
        · next he => rw [he]; simpa [he] using this
        · next he => rw [if_neg he]; exact this
    | some fd =>
      have hh : if fd = invalid_fd then live = [] else live = [fd] := h
      have := open_by_path_effect fd env live hh
      simp only [pcmStep, pcmEvs, open_device, liveInv]
      split at this
      · next he => rw [he]; simpa [he] using this
      · next he => rw [if_neg he]; exact this
  | closeOp env =>
    cases s with
    | none =>
      have hl : live = [] := h
      subst hl
      simp [pcmStep, pcmEvs, pcm_close, replay, liveInv]
    | some fd =>
      have hh : if fd = invalid_fd then live = [] else live = [fd] := h
      by_cases hfd : fd = invalid_fd
      · rw [if_pos hfd] at hh
        subst hh
        subst hfd
        simp [pcmStep, pcmEvs, pcm_close, replay, liveInv]
      · rw [if_neg hfd] at hh
        subst hh
        simp [pcmStep, pcmEvs, pcm_close, hfd, replay, applyEv, liveInv]
  | ctl req env => simpa [pcmStep, pcmEvs, replay] using h
  | getInfo env => simpa [pcmStep, pcmEvs, replay] using h
  | readOp n env => simpa [pcmStep, pcmEvs, replay] using h

theorem pcmRun_go (ops : List PcmOp) :
    ∀ s live, liveInv s live →
      liveInv (ops.foldl (fun p op => (pcmStep p.1 op, replay p.2 (pcmEvs p.1 op))) (s, live)).1
        (ops.foldl (fun p op => (pcmStep p.1 op, replay p.2 (pcmEvs p.1 op))) (s, live)).2 := by
  induction ops with
  | nil => intro s live h; simpa using h
  | cons op rest ih =>
    intro s live h
    simp only [List.foldl_cons]
    exact ih _ _ (liveInv_step s live op h)

theorem pcmRun_liveInv (ops : List PcmOp) : liveInv (pcmRun ops).1 (pcmRun ops).2 := by
  have := pcmRun_go ops pcm_init [] (by simp [liveInv, pcm_init])
  simpa [pcmRun] using this

theorem liveInv_length (s : PcmState) (live : List Int) (h : liveInv s live) :
    live.length ≤ 1 := by
  cases s with
  | none => have hl : live = [] := h; simp [hl]
  | some fd =>
    have hh : if fd = invalid_fd then live = [] else live = [fd] := h
    split at hh <;> simp [hh]

/-! ### Claim C5 -/

/-- Claim C5: through any sequence of operations from construction, a
handle owns at most one live descriptor at any moment, and a
path-based open performed while the handle already holds an open
descriptor issues the close of that prior descriptor before the open
syscall. -/
theorem pcm_single_live_descriptor (ops : List PcmOp) (f : Int) (allocOk : Bool) (env : OpenEnv)
    (hf : f ≠ invalid_fd) :
    (pcmRun ops).2.length ≤ 1 ∧
      (open_device (some f) allocOk env).2.2 = [Ev.closeFd f, Ev.openFile env.ret] := by
  refine ⟨liveInv_length _ _ (pcmRun_liveInv ops), ?_⟩
  by_cases hr : env.ret < 0 <;> simp [open_device, open_by_path, hf, hr]

theorem pcm_single_live_descriptor_witness :
    (pcmRun [PcmOp.openDev true ⟨3, 0⟩, PcmOp.openDev true ⟨7, 0⟩]).2.length ≤ 1 ∧
      (open_device (some 5) true ⟨9, 0⟩).2.2 = [Ev.closeFd 5, Ev.openFile 9] :=
  pcm_single_live_descriptor [PcmOp.openDev true ⟨3, 0⟩, PcmOp.openDev true ⟨7, 0⟩] 5 true
    ⟨9, 0⟩ (by decide)

/-! ### Claim C6 -/

/-- Claim C6: on a handle on which no open was ever attempted,
prepare, start, drop and get_info each return the ENOENT code and
issue no control call, whatever the control interface would have
returned. -/
theorem never_opened_enoent {α : Type} (env1 env2 env3 env4 : IoctlEnv) (payload : α) :
    pcm_ctl CtlReq.prepare pcm_init env1 = (ENOENT, []) ∧
      pcm_ctl CtlReq.start pcm_init env2 = (ENOENT, []) ∧
      pcm_ctl CtlReq.dropReq pcm_init env3 = (ENOENT, []) ∧
      pcm_get_info pcm_init env4 payload = ((ENOENT, none), []) :=
  ⟨rfl, rfl, rfl, rfl⟩

/-! ### Claim C3 -/

/-- Claim C3, counterexample: a device operation on a never-opened
handle that does not fail with ENOENT: read_unformatted issues the
transfer ioctl on the invalid sentinel descriptor (no null-handle
check exists), and when that ioctl fails — as it must on the sentinel
— the result is EINVAL with zero frames, and EINVAL differs from
ENOENT. -/
theorem read_unformatted_not_enoent :
    (read_unformatted pcm_init 128 ⟨-1, 9⟩).1 = (EINVAL, 0) ∧
      (read_unformatted pcm_init 128 ⟨-1, 9⟩).2 = [(invalid_fd, 128)] ∧ EINVAL ≠ ENOENT :=
  ⟨rfl, rfl, by decide⟩

/-- Claim C3 (amended): on a handle before any open attempt, prepare,
start, drop and get_info fail with ENOENT without touching the control
interface; read_unformatted is the exception in the public surface: it
performs no unallocated-handle check, issues the transfer ioctl on the
invalid sentinel descriptor, and surfaces any ioctl failure as EINVAL
with zero frames — not as ENOENT. -/
theorem unallocated_misuse_codes {α : Type} (req : CtlReq) (env : IoctlEnv)
    (frame_count : Nat) (envx : XferEnv) (payload : α) (hx : envx.ret ≠ 0) :
    pcm_ctl req pcm_init env = (ENOENT, []) ∧
      (pcm_get_info pcm_init env payload).1.1 = ENOENT ∧
      (read_unformatted pcm_init frame_count envx).1 = (EINVAL, 0) ∧
      (read_unformatted pcm_init frame_count envx).2 = [(invalid_fd, frame_count)] ∧
      EINVAL ≠ ENOENT := by
  refine ⟨rfl, rfl, ?_, ?_, by decide⟩
  · simp [read_unformatted, hx]
  · simp [read_unformatted, hx, pcm_init, get_file_descriptor]

theorem unallocated_misuse_codes_witness :
    pcm_ctl CtlReq.prepare pcm_init ⟨0, 0⟩ = (ENOENT, []) ∧
      (pcm_get_info pcm_init ⟨0, 0⟩ (0 : Nat)).1.1 = ENOENT ∧
      (read_unformatted pcm_init 64 ⟨-1, 9⟩).1 = (EINVAL, 0) ∧
      (read_unformatted pcm_init 64 ⟨-1, 9⟩).2 = [(invalid_fd, 64)] ∧
      EINVAL ≠ ENOENT :=
  unallocated_misuse_codes CtlReq.prepare ⟨0, 0⟩ 64 ⟨-1, 9⟩ (0 : Nat) (by decide)

/-! ### Claim C7 -/

/-- Claim C7: whenever the transfer ioctl fails, read_unformatted
returns the EINVAL code with zero frames transferred; whenever it
succeeds, it returns success carrying the count the ioctl reported,
also when that count falls short of the requested frame_count — a
short read is success, never failure — and exactly one transfer
request is issued, so a short read is not retried. -/
theorem read_unformatted_short_read (s : PcmState) (frame_count : Nat) (envx : XferEnv) :
    (envx.ret ≠ 0 → (read_unformatted s frame_count envx).1 = (EINVAL, 0)) ∧
      (envx.ret = 0 → (read_unformatted s frame_count envx).1 = (0, envx.resultFrames)) ∧
      (read_unformatted s frame_count envx).2.length = 1 := by
  refine ⟨fun hx => by simp [read_unformatted, hx], fun hx => by simp [read_unformatted, hx], ?_⟩
  by_cases hx : envx.ret ≠ 0 <;> simp [read_unformatted, hx]

theorem read_unformatted_short_read_witness :
    (read_unformatted (some 3) 100 ⟨0, 7⟩).1 = (0, 7) ∧
      (read_unformatted (some 3) 100 ⟨-1, 0⟩).1 = (EINVAL, 0) :=
  ⟨(read_unformatted_short_read (some 3) 100 ⟨0, 7⟩).2.1 rfl,
   (read_unformatted_short_read (some 3) 100 ⟨-1, 0⟩).1 (by decide)⟩

/-! ### Claim C8 -/

/-- Claim C8: a default-constructed handle reports not-open and the
invalid sentinel descriptor; close is a success no-op on a
never-opened handle and on an already-closed handle (idempotent); and
close on an open handle marks it empty whatever the close syscall
outcome, returning the platform errno exactly when that syscall failed
and success otherwise. -/
theorem pcm_handle_lifecycle (fd : Int) (env env2 : CloseEnv) (hfd : fd ≠ invalid_fd) :
    is_open pcm_init = false ∧
      get_file_descriptor pcm_init = invalid_fd ∧
      (pcm_close pcm_init env).2.1 = 0 ∧
      (pcm_close (some invalid_fd) env).2.1 = 0 ∧
      is_open (pcm_close (some fd) env).1 = false ∧
      (env.ret = -1 → (pcm_close (some fd) env).2.1 = env.errno) ∧
      (env.ret ≠ -1 → (pcm_close (some fd) env).2.1 = 0) ∧
      (pcm_close (pcm_close (some fd) env).1 env2).2.1 = 0 := by
  refine ⟨rfl, rfl, rfl, ?_, ?_, ?_, ?_, ?_⟩
  · simp [pcm_close]
  · simp [pcm_close, hfd, is_open]
  · intro h; simp [pcm_close, hfd, h]
  · intro h; simp [pcm_close, hfd, h]
  · simp [pcm_close, hfd]

theorem pcm_handle_lifecycle_witness :
    is_open pcm_init = false ∧
      get_file_descriptor pcm_init = invalid_fd ∧
      (pcm_close pcm_init ⟨-1, 13⟩).2.1 = 0 ∧
      (pcm_close (some invalid_fd) ⟨-1, 13⟩).2.1 = 0 ∧
      is_open (pcm_close (some 5) ⟨-1, 13⟩).1 = false ∧
      ((-1 : Int) = -1 → (pcm_close (some 5) ⟨-1, 13⟩).2.1 = 13) ∧
      ((-1 : Int) ≠ -1 → (pcm_close (some 5) ⟨-1, 13⟩).2.1 = 0) ∧
      (pcm_close (pcm_close (some 5) ⟨-1, 13⟩).1 ⟨0, 0⟩).2.1 = 0 :=
  pcm_handle_lifecycle 5 ⟨-1, 13⟩ ⟨0, 0⟩ (by decide)

/-! ### Claim C9 -/

/-- Claim C9: the class and subclass translations are total functions
from the integer native codes into the closed enumerations; every
native class code outside the four recognized ones maps to the unknown
class, and every native subclass code outside the two recognized ones
maps to the unknown subclass. -/
theorem class_subclass_unknown (n m : Int)
    (hn1 : n ≠ SNDRV_PCM_CLASS_GENERIC) (hn2 : n ≠ SNDRV_PCM_CLASS_MULTI)
    (hn3 : n ≠ SNDRV_PCM_CLASS_MODEM) (hn4 : n ≠ SNDRV_PCM_CLASS_DIGITIZER)
    (hm1 : m ≠ SNDRV_PCM_SUBCLASS_GENERIC_MIX) (hm2 : m ≠ SNDRV_PCM_SUBCLASS_MULTI_MIX) :
    to_tinyalsa_class n = pcm_class.unknown ∧ to_tinyalsa_subclass m = pcm_subclass.unknown := by
  unfold to_tinyalsa_class to_tinyalsa_subclass
  rw [if_neg hn1, if_neg hn2, if_neg hn3, if_neg hn4, if_neg hm1, if_neg hm2]
  exact ⟨rfl, rfl⟩

theorem class_subclass_unknown_witness :
    to_tinyalsa_class 99 = pcm_class.unknown ∧
      to_tinyalsa_subclass (-7) = pcm_subclass.unknown :=
  class_subclass_unknown 99 (-7) (by decide) (by decide) (by decide) (by decide) (by decide)
    (by decide)

/-! ### Claim C2 -/

theorem pcm_list_build_spec {α : Type} (alloc : Nat → Bool) (entries : List (EnvEntry α)) :
    ∀ acc, ∃ k, k ≤ entries.length ∧
      pcm_list_build alloc entries acc = acc ++ (entries.take k).filterMap entrySnapshot ∧
      ((∀ n, alloc n = true) → k = entries.length) := by
  induction entries with
  | nil =>
    intro acc
    exact ⟨0, Nat.le_refl 0, by simp [pcm_list_build], fun _ => rfl⟩
  | cons e rest ih =>
    intro acc
    cases hp : parse e.name with
    | none =>
      obtain ⟨k, hk, heq, hall⟩ := ih acc
      refine ⟨k + 1, by simpa using hk, ?_, fun ha => by rw [hall ha]; simp⟩
      simp [pcm_list_build, hp, entrySnapshot, heq]
    | some v =>
      obtain ⟨c, d, cap⟩ := v
      by_cases ho : e.openErr c d cap false ≠ 0
      · obtain ⟨k, hk, heq, hall⟩ := ih acc
        refine ⟨k + 1, by simpa using hk, ?_, fun ha => by rw [hall ha]; simp⟩
        simp [pcm_list_build, hp, ho, entrySnapshot, heq]
      · cases hi : e.infoOut with
        | error err =>
          obtain ⟨k, hk, heq, hall⟩ := ih acc
          refine ⟨k + 1, by simpa using hk, ?_, fun ha => by rw [hall ha]; simp⟩
          simp [pcm_list_build, hp, ho, hi, entrySnapshot, heq]
        | ok info =>
          by_cases ha : alloc acc.length
          · obtain ⟨k, hk, heq, hall⟩ := ih (acc ++ [info])
            refine ⟨k + 1, by simpa using hk, ?_, fun hal => by rw [hall hal]; simp⟩
            simp [pcm_list_build, hp, ho, hi, ha, entrySnapshot, heq, List.append_assoc]
          · refine ⟨0, Nat.zero_le _, ?_, fun hal => absurd (hal acc.length) (by simp [ha])⟩
            simp [pcm_list_build, hp, ho, hi, ha]

/-- Claim C2: one enumeration pass yields, in directory-scan order,
exactly the snapshots of the first k scanned entries for some k: an
entry contributes its snapshot exactly when its name parses, the
implied device (capture or playback per the parsed direction, opened
in blocking mode) opens with success, and get_info succeeds, every
failing candidate being skipped with the scan continuing; k falls
short of the whole directory only when an append fails from resource
exhaustion, the pass then ending early with the partial list retained
and no error surfaced; when every append succeeds, k is the whole
directory. -/
theorem pcm_list_enumeration {α : Type} (alloc : Nat → Bool) (entries : List (EnvEntry α)) :
    ∃ k, k ≤ entries.length ∧
      pcm_list_build alloc entries [] = (entries.take k).filterMap entrySnapshot ∧
      ((∀ n, alloc n = true) → k = entries.length) := by
  obtain ⟨k, h1, h2, h3⟩ := pcm_list_build_spec alloc entries []
  exact ⟨k, h1, by simpa using h2, h3⟩

/-! ### Claim C10 -/

/-- Claim C10: when the open syscall of a path-based open fails, the
handle is left Closed — the stored field is reset to the sentinel, so
is_open is false and get_file_descriptor reports the sentinel — even
when a descriptor f was held before the call; f is closed before the
open syscall and is not restored on failure, so a failed re-open does
not keep the previous open state. -/
theorem open_by_path_failure_state (f : Int) (env : OpenEnv) (hf : f ≠ invalid_fd)
    (hfail : env.ret < 0) :
    (open_by_path f env).1 = invalid_fd ∧
      (open_by_path f env).2.1 = env.errno ∧
      (open_by_path f env).2.2 = [Ev.closeFd f, Ev.openFile env.ret] ∧
      is_open (some (open_by_path f env).1) = false ∧
      get_file_descriptor (some (open_by_path f env).1) = invalid_fd ∧
      (open_by_path f env).1 ≠ f := by
  refine ⟨?_, ?_, ?_, ?_, ?_, ?_⟩ <;>
    simp [open_by_path, hf, hfail, is_open, get_file_descriptor]
  exact fun he => hf he.symm

theorem open_by_path_failure_state_witness :
    (open_by_path 5 ⟨-1, 13⟩).1 = invalid_fd ∧
      (open_by_path 5 ⟨-1, 13⟩).2.1 = 13 ∧
      (open_by_path 5 ⟨-1, 13⟩).2.2 = [Ev.closeFd 5, Ev.openFile (-1)] ∧
      is_open (some (open_by_path 5 ⟨-1, 13⟩).1) = false ∧
      get_file_descriptor (some (open_by_path 5 ⟨-1, 13⟩).1) = invalid_fd ∧
      (open_by_path 5 ⟨-1, 13⟩).1 ≠ 5 :=
  open_by_path_failure_state 5 ⟨-1, 13⟩ (by decide) (by decide)

end TinyAlsa
